import Mathlib

/-!
Verification development for the eryzaa core: a shallow embedding of
`src/core/ssh-manager/src/lib.rs` (the SSH access broker) and
`src/core/discovery/src/lib.rs` (the peer discovery service), with proofs
of the specified properties.

Modelling conventions:
- Rust `HashMap` values are modelled as association lists with the usual
  lookup / insert-or-replace / erase operations; iteration order of the map
  is the list order.
- `chrono` instants are modelled as integers (seconds); `chrono::Duration::hours(h)`
  adds `h * 3600` seconds.
- Nondeterministic inputs of the Rust code (the generated username, the
  current time, the outcome of the privileged-account gateway call) are
  explicit parameters of the Lean functions.
- Rust methods that mutate `self` and return `Result` are modelled as
  functions returning the pair of the `Result` value and the post-state,
  so that state changes made before an error return are visible.
-/

/-- Association-list lookup, modelling `HashMap::get`. -/
def lookupAssoc {κ α : Type} [DecidableEq κ] (k : κ) : List (κ × α) → Option α
  | [] => none
  | (k2, v) :: t => if k2 = k then some v else lookupAssoc k t

/-- Association-list insert-or-replace, modelling `HashMap::insert`. -/
def insertAssoc {κ α : Type} [DecidableEq κ] (k : κ) (v : α) : List (κ × α) → List (κ × α)
  | [] => [(k, v)]
  | (k2, v2) :: t => if k2 = k then (k, v) :: t else (k2, v2) :: insertAssoc k v t

/-- Association-list removal of a key, modelling `HashMap::remove` (the
returned value is obtained separately via `lookupAssoc`). -/
def eraseAssoc {κ α : Type} [DecidableEq κ] (k : κ) (l : List (κ × α)) : List (κ × α) :=
  l.filter fun p => p.1 != k

/-- `SshUser` from `ssh-manager/src/lib.rs`. -/
structure SshUser where
  username : String
  job_id : String
  created_at : Int
  is_active : Bool
  ssh_key : Option String
deriving DecidableEq, Repr

/-- `JobAccess` from `ssh-manager/src/lib.rs`. -/
structure JobAccess where
  job_id : String
  client_id : String
  ssh_user : SshUser
  expires_at : Int
deriving DecidableEq, Repr

/-- The mutable state of `SshManager`: the lease table `active_users` and the
single-slot exclusivity token `current_user`. -/
structure SshManager where
  active_users : List (String × JobAccess)
  current_user : Option String
deriving DecidableEq, Repr

/-- `SshManager::new()`. -/
def SshManager.new : SshManager := ⟨[], none⟩

/-- The error message returned by `create_job_user` when the slot is occupied
(the ExclusivityViolation error of the spec). -/
def exclusivityViolationMsg : String := "Another user is currently accessing this rental node"

/-- The error message returned by `remove_job_user` for an unknown job (the
UserNotFound error of the spec). The source wraps the job id in single
quotes; the quotes are immaterial and omitted here. -/
def userNotFoundMsg (job_id : String) : String := "No SSH user found for job " ++ job_id

/-- `SshManager::create_job_user`. `username` stands for the name generated
from a fresh UUID, `now` for `chrono::Utc::now()`, and `gw` for the outcome
of the `create_system_user` gateway call (the generated password only flows
into the gateway and does not affect broker state, so it is not modelled).
Returns the `Result` together with the post-state. -/
def create_job_user (m : SshManager) (job_id client_id : String) (duration_hours : Nat)
    (username : String) (now : Int) (gw : Except String Unit) :
    Except String JobAccess × SshManager :=
  match m.current_user with
  | some _ => (Except.error exclusivityViolationMsg, m)
  | none =>
    match gw with
    | Except.error e => (Except.error e, m)
    | Except.ok _ =>
      let ssh_user : SshUser :=
        { username := username, job_id := job_id, created_at := now
          is_active := true, ssh_key := none }
      let job_access : JobAccess :=
        { job_id := job_id, client_id := client_id, ssh_user := ssh_user
          expires_at := now + (duration_hours : Int) * 3600 }
      (Except.ok job_access,
        { active_users := insertAssoc job_id job_access m.active_users
          current_user := some username })

/-- `SshManager::remove_job_user`. `gw` is the outcome of the
`delete_system_user` gateway call. The source removes the lease from the
table and clears the slot before issuing the gateway call, so on gateway
failure the error is returned while the mutations stand. -/
def remove_job_user (m : SshManager) (job_id : String) (gw : Except String Unit) :
    Except String Unit × SshManager :=
  match lookupAssoc job_id m.active_users with
  | none => (Except.error (userNotFoundMsg job_id), m)
  | some job_access =>
    let m2 : SshManager :=
      { active_users := eraseAssoc job_id m.active_users
        current_user :=
          if m.current_user = some job_access.ssh_user.username then none
          else m.current_user }
    match gw with
    | Except.ok _ => (Except.ok (), m2)
    | Except.error e => (Except.error e, m2)

/-- `SshManager::validate_user_access`, with `now` for `chrono::Utc::now()`. -/
def validate_user_access (m : SshManager) (username : String) (now : Int) : Bool :=
  m.active_users.any fun p =>
    p.2.ssh_user.username == username && p.2.ssh_user.is_active &&
      decide (now < p.2.expires_at)

/-- The loop body of `cleanup_expired_users`: iterate over the snapshot of the
lease table, and for each expired lease call `remove_job_user` on the live
state, collecting the job id when the removal returned `Ok`. `gw` gives the
gateway outcome used for each job id. -/
def cleanupGo (now : Int) (gw : String → Except String Unit) :
    List (String × JobAccess) → SshManager → List String × SshManager
  | [], m => ([], m)
  | (job_id, access) :: rest, m =>
    if access.expires_at ≤ now then
      let r := remove_job_user m job_id (gw job_id)
      match r.1 with
      | Except.ok _ =>
        let rec2 := cleanupGo now gw rest r.2
        (job_id :: rec2.1, rec2.2)
      | Except.error _ => cleanupGo now gw rest r.2
    else cleanupGo now gw rest m

/-- `SshManager::cleanup_expired_users`: clones the lease table and runs the
loop body over the snapshot. The Rust return type is `Result`, always `Ok`. -/
def cleanup_expired_users (m : SshManager) (now : Int) (gw : String → Except String Unit) :
    List String × SshManager :=
  cleanupGo now gw m.active_users m

/-!
## Discovery service (`src/core/discovery/src/lib.rs`)

The payload format is `bincode::serialize` / `bincode::deserialize` with the
bincode 1.x defaults: little-endian fixed-width integers (`u16` = 2 bytes,
`u32` = 4, `u64` = 8), `bool` as one byte 0/1, `Option` as a one-byte tag
0/1 followed by the value, enums as the `u32` variant index, `String` as a
`u64` byte length followed by the UTF-8 bytes, struct fields in declaration
order. Byte buffers are modelled as `List Nat` with entries below 256, and
Rust strings by their UTF-8 byte sequences.
-/

/-- Little-endian fixed-width encoding of `n` on `k` bytes. -/
def putLE : Nat → Nat → List Nat
  | 0, _ => []
  | k + 1, n => n % 256 :: putLE k (n / 256)

/-- Little-endian fixed-width decoding of `k` bytes. -/
def getLE : Nat → List Nat → Option (Nat × List Nat)
  | 0, bs => some (0, bs)
  | _ + 1, [] => none
  | k + 1, b :: bs => (getLE k bs).map fun p => (b + 256 * p.1, p.2)

/-- bincode encoding of a byte string: `u64` length then the bytes. -/
def putBytes (s : List Nat) : List Nat := putLE 8 s.length ++ s

/-- bincode decoding of a byte string. -/
def getBytes (bs : List Nat) : Option (List Nat × List Nat) :=
  (getLE 8 bs).bind fun p =>
    if p.1 ≤ p.2.length then some (p.2.take p.1, p.2.drop p.1) else none

/-- bincode encoding of `Option`: tag byte 0/1 then the value. -/
def putOpt (f : α → List Nat) : Option α → List Nat
  | none => [0]
  | some x => 1 :: f x

/-- bincode decoding of `Option`. -/
def getOpt (g : List Nat → Option (α × List Nat)) : List Nat → Option (Option α × List Nat)
  | 0 :: t => some (none, t)
  | 1 :: t => (g t).map fun p => (some p.1, p.2)
  | _ => none

/-- bincode encoding of `bool`: one byte 0/1. -/
def putBool (b : Bool) : List Nat := [if b then 1 else 0]

/-- bincode decoding of `bool`. -/
def getBool : List Nat → Option (Bool × List Nat)
  | 0 :: t => some (false, t)
  | 1 :: t => some (true, t)
  | _ => none

/-- `NodeType` from `discovery/src/lib.rs`. -/
inductive NodeType where
  | Rental
  | Client
  | Coordinator
deriving DecidableEq, Repr

/-- `NodeStatus` from `discovery/src/lib.rs`. -/
inductive NodeStatus where
  | Available
  | Busy
  | Maintenance
  | Offline
deriving DecidableEq, Repr

/-- `NodeCapabilities` from `discovery/src/lib.rs`; `u32` fields as `Nat`. -/
structure NodeCapabilities where
  cpu_cores : Nat
  memory_gb : Nat
  gpu_count : Nat
  gpu_memory_gb : Nat
  disk_space_gb : Nat
  network_speed_mbps : Nat
  supports_docker : Bool
  supports_gpu : Bool
  max_concurrent_jobs : Nat
deriving DecidableEq, Repr

/-- `NodeAdvertisement` from `discovery/src/lib.rs`; string fields as UTF-8
byte sequences, `u16` ports and the `u64` timestamp as `Nat`. -/
structure NodeAdvertisement where
  node_id : List Nat
  node_type : NodeType
  ip_address : List Nat
  zerotier_ip : Option (List Nat)
  ssh_port : Nat
  api_port : Nat
  capabilities : NodeCapabilities
  status : NodeStatus
  timestamp : Nat
  network_id : List Nat
deriving DecidableEq, Repr

/-- serde variant index of `NodeType`. -/
def nodeTypeIdx : NodeType → Nat
  | .Rental => 0
  | .Client => 1
  | .Coordinator => 2

/-- bincode encoding of `NodeType`: the `u32` variant index. -/
def putNodeType (t : NodeType) : List Nat := putLE 4 (nodeTypeIdx t)

/-- bincode decoding of `NodeType`. -/
def getNodeType (bs : List Nat) : Option (NodeType × List Nat) :=
  (getLE 4 bs).bind fun p =>
    match p.1 with
    | 0 => some (.Rental, p.2)
    | 1 => some (.Client, p.2)
    | 2 => some (.Coordinator, p.2)
    | _ => none

/-- serde variant index of `NodeStatus`. -/
def nodeStatusIdx : NodeStatus → Nat
  | .Available => 0
  | .Busy => 1
  | .Maintenance => 2
  | .Offline => 3

/-- bincode encoding of `NodeStatus`: the `u32` variant index. -/
def putNodeStatus (s : NodeStatus) : List Nat := putLE 4 (nodeStatusIdx s)

/-- bincode decoding of `NodeStatus`. -/
def getNodeStatus (bs : List Nat) : Option (NodeStatus × List Nat) :=
  (getLE 4 bs).bind fun p =>
    match p.1 with
    | 0 => some (.Available, p.2)
    | 1 => some (.Busy, p.2)
    | 2 => some (.Maintenance, p.2)
    | 3 => some (.Offline, p.2)
    | _ => none

/-- bincode encoding of `NodeCapabilities`: fields in declaration order. -/
def putCaps (c : NodeCapabilities) : List Nat :=
  putLE 4 c.cpu_cores ++ putLE 4 c.memory_gb ++ putLE 4 c.gpu_count ++
    putLE 4 c.gpu_memory_gb ++ putLE 4 c.disk_space_gb ++ putLE 4 c.network_speed_mbps ++
    putBool c.supports_docker ++ putBool c.supports_gpu ++ putLE 4 c.max_concurrent_jobs

/-- bincode decoding of `NodeCapabilities`. -/
def getCaps (bs : List Nat) : Option (NodeCapabilities × List Nat) :=
  (getLE 4 bs).bind fun p1 =>
  (getLE 4 p1.2).bind fun p2 =>
  (getLE 4 p2.2).bind fun p3 =>
  (getLE 4 p3.2).bind fun p4 =>
  (getLE 4 p4.2).bind fun p5 =>
  (getLE 4 p5.2).bind fun p6 =>
  (getBool p6.2).bind fun p7 =>
  (getBool p7.2).bind fun p8 =>
  (getLE 4 p8.2).bind fun p9 =>
    some (⟨p1.1, p2.1, p3.1, p4.1, p5.1, p6.1, p7.1, p8.1, p9.1⟩, p9.2)

/-- `bincode::serialize` of a `NodeAdvertisement`: fields in declaration
order. -/
def serializeAd (r : NodeAdvertisement) : List Nat :=
  putBytes r.node_id ++ putNodeType r.node_type ++ putBytes r.ip_address ++
    putOpt putBytes r.zerotier_ip ++ putLE 2 r.ssh_port ++ putLE 2 r.api_port ++
    putCaps r.capabilities ++ putNodeStatus r.status ++ putLE 8 r.timestamp ++
    putBytes r.network_id

/-- `bincode::deserialize` of a `NodeAdvertisement` (bincode 1.x free
functions allow trailing bytes, so the remainder is returned). -/
def deserializeAd (bs : List Nat) : Option (NodeAdvertisement × List Nat) :=
  (getBytes bs).bind fun p1 =>
  (getNodeType p1.2).bind fun p2 =>
  (getBytes p2.2).bind fun p3 =>
  (getOpt getBytes p3.2).bind fun p4 =>
  (getLE 2 p4.2).bind fun p5 =>
  (getLE 2 p5.2).bind fun p6 =>
  (getCaps p6.2).bind fun p7 =>
  (getNodeStatus p7.2).bind fun p8 =>
  (getLE 8 p8.2).bind fun p9 =>
  (getBytes p9.2).bind fun p10 =>
    some (⟨p1.1, p2.1, p3.1, p4.1, p5.1, p6.1, p7.1, p8.1, p9.1, p10.1⟩, p10.2)

/-- A valid `NodeAdvertisement`: string fields are genuine byte strings of
`u64`-representable length, ports fit in `u16`, capability counters fit in
`u32`, the timestamp fits in `u64`. -/
def ValidAd (r : NodeAdvertisement) : Prop :=
  (∀ b ∈ r.node_id, b < 256) ∧ r.node_id.length < 2 ^ 64 ∧
  (∀ b ∈ r.ip_address, b < 256) ∧ r.ip_address.length < 2 ^ 64 ∧
  (∀ s, r.zerotier_ip = some s → (∀ b ∈ s, b < 256) ∧ s.length < 2 ^ 64) ∧
  r.ssh_port < 2 ^ 16 ∧ r.api_port < 2 ^ 16 ∧
  r.capabilities.cpu_cores < 2 ^ 32 ∧ r.capabilities.memory_gb < 2 ^ 32 ∧
  r.capabilities.gpu_count < 2 ^ 32 ∧ r.capabilities.gpu_memory_gb < 2 ^ 32 ∧
  r.capabilities.disk_space_gb < 2 ^ 32 ∧ r.capabilities.network_speed_mbps < 2 ^ 32 ∧
  r.capabilities.max_concurrent_jobs < 2 ^ 32 ∧
  r.timestamp < 2 ^ 64 ∧
  (∀ b ∈ r.network_id, b < 256) ∧ r.network_id.length < 2 ^ 64

/-- `NODE_TIMEOUT` in seconds. -/
def NODE_TIMEOUT : Nat := 120

/-- Wrapping `u64` subtraction `a - b` (release-mode Rust semantics), for
`a, b < 2 ^ 64`. -/
def sub64 (a b : Nat) : Nat := (2 ^ 64 + a - b) % 2 ^ 64

/-- One iteration of the listener loop on a received datagram: deserialize;
drop the record if deserialization fails, if its node id is the local id, or
if its age `current_timestamp() - timestamp` (wrapping `u64` subtraction) is
not below `NODE_TIMEOUT`; otherwise upsert into the peer table. -/
def processDatagram (localId : List Nat) (now : Nat)
    (table : List (List Nat × NodeAdvertisement)) (data : List Nat) :
    List (List Nat × NodeAdvertisement) :=
  match deserializeAd data with
  | none => table
  | some (ad, _) =>
    if ad.node_id = localId then table
    else if sub64 now ad.timestamp < NODE_TIMEOUT then
      insertAssoc ad.node_id ad table
    else table

/-- The listener loop over a sequence of datagrams, each received at its own
current time. -/
def listenerRun (localId : List Nat) (msgs : List (Nat × List Nat))
    (table : List (List Nat × NodeAdvertisement)) :
    List (List Nat × NodeAdvertisement) :=
  msgs.foldl (fun t p => processDatagram localId p.1 t p.2) table

/-- One janitor pass at `current_time`: `retain` the entries whose age
(wrapping `u64` subtraction) is below `NODE_TIMEOUT`. -/
def janitorPass (now : Nat) (table : List (List Nat × NodeAdvertisement)) :
    List (List Nat × NodeAdvertisement) :=
  table.filter fun p => decide (sub64 now p.2.timestamp < NODE_TIMEOUT)

/-!
## Association-list lemmas
-/

theorem lookupAssoc_cons_self {κ α : Type} [DecidableEq κ] (k : κ) (v : α)
    (t : List (κ × α)) : lookupAssoc k ((k, v) :: t) = some v := by
  simp [lookupAssoc]

theorem lookupAssoc_append_right {κ α : Type} [DecidableEq κ] (k : κ)
    (l1 l2 : List (κ × α)) (h : k ∉ l1.map Prod.fst) :
    lookupAssoc k (l1 ++ l2) = lookupAssoc k l2 := by
  induction l1 with
  | nil => rfl
  | cons p t ih =>
    cases p with
    | mk k2 v =>
      simp only [List.map_cons, List.mem_cons] at h
      push_neg at h
      simp only [List.cons_append, lookupAssoc]
      rw [if_neg (Ne.symm h.1)]
      exact ih h.2

theorem eraseAssoc_of_notMem {κ α : Type} [DecidableEq κ] (k : κ)
    (l : List (κ × α)) (h : k ∉ l.map Prod.fst) : eraseAssoc k l = l := by
  induction l with
  | nil => rfl
  | cons p t ih =>
    simp only [List.map_cons, List.mem_cons] at h
    push_neg at h
    simp only [eraseAssoc, List.filter_cons, bne_iff_ne, ne_eq]
    rw [if_pos (by simpa using (Ne.symm h.1))]
    have := ih h.2
    simp only [eraseAssoc] at this
    rw [this]

theorem lookupAssoc_eraseAssoc_self {κ α : Type} [DecidableEq κ] (k : κ)
    (l : List (κ × α)) : lookupAssoc k (eraseAssoc k l) = none := by
  induction l with
  | nil => rfl
  | cons p t ih =>
    by_cases hp : p.1 = k
    · simp only [eraseAssoc, List.filter_cons, bne_iff_ne, ne_eq, hp,
        not_true_eq_false, if_false] at ih ⊢
      exact ih
    · simp only [eraseAssoc, List.filter_cons, bne_iff_ne, ne_eq, hp,
        not_false_eq_true, if_true] at ih ⊢
      cases p with
      | mk k2 v => simpa [lookupAssoc, hp] using ih

theorem lookupAssoc_insertAssoc_ne {κ α : Type} [DecidableEq κ] (k j : κ) (v : α)
    (l : List (κ × α)) (h : k ≠ j) :
    lookupAssoc j (insertAssoc k v l) = lookupAssoc j l := by
  induction l with
  | nil => simp [insertAssoc, lookupAssoc, h]
  | cons p t ih =>
    cases p with
    | mk k2 v2 =>
      by_cases hk : k2 = k
      · simp [insertAssoc, lookupAssoc, hk, h]
      · simp only [insertAssoc, if_neg hk, lookupAssoc]
        by_cases hj : k2 = j
        · simp [hj]
        · simp [hj, ih]

/-!
## Unfolding lemmas for `remove_job_user`
-/

theorem remove_job_user_not_found (m : SshManager) (job_id : String)
    (gw : Except String Unit) (h : lookupAssoc job_id m.active_users = none) :
    remove_job_user m job_id gw = (Except.error (userNotFoundMsg job_id), m) := by
  simp [remove_job_user, h]

theorem remove_job_user_found_ok (m : SshManager) (job_id : String) (ja : JobAccess)
    (h : lookupAssoc job_id m.active_users = some ja) :
    remove_job_user m job_id (Except.ok ()) =
      (Except.ok (),
        { active_users := eraseAssoc job_id m.active_users
          current_user :=
            if m.current_user = some ja.ssh_user.username then none
            else m.current_user }) := by
  simp [remove_job_user, h]

theorem remove_job_user_found_err (m : SshManager) (job_id : String) (ja : JobAccess)
    (e : String) (h : lookupAssoc job_id m.active_users = some ja) :
    remove_job_user m job_id (Except.error e) =
      (Except.error e,
        { active_users := eraseAssoc job_id m.active_users
          current_user :=
            if m.current_user = some ja.ssh_user.username then none
            else m.current_user }) := by
  simp [remove_job_user, h]

/-!
## C1: exclusivity on creation
-/

/-- C1: when the exclusivity slot is occupied, `create_job_user` fails with the
ExclusivityViolation error and the whole broker state (lease table, any
existing lease, and the slot) is returned exactly as before the call. -/
theorem create_job_user_occupied (m : SshManager) (u job_id client_id : String)
    (duration_hours : Nat) (username : String) (now : Int) (gw : Except String Unit)
    (h : m.current_user = some u) :
    create_job_user m job_id client_id duration_hours username now gw =
      (Except.error exclusivityViolationMsg, m) := by
  simp [create_job_user, h]

/-- A broker state holding one lease for job1, slot occupied by its account. -/
def leaseJob1 : JobAccess :=
  { job_id := "job1", client_id := "c1"
    ssh_user := { username := "job_a1b2c3d4", job_id := "job1", created_at := 0
                  is_active := true, ssh_key := none }
    expires_at := 3600 }

/-- The occupied broker state of the spec scenario. -/
def occupiedMgr : SshManager := ⟨[("job1", leaseJob1)], some "job_a1b2c3d4"⟩

/-- Witness for C1: the spec scenario, a second `create_job_user` against the
occupied broker fails with ExclusivityViolation and changes nothing. -/
theorem create_job_user_occupied_witness :
    occupiedMgr.current_user = some "job_a1b2c3d4" ∧
      create_job_user occupiedMgr "job2" "c2" 1 "job_e5f6a7b8" 50 (Except.ok ()) =
        (Except.error exclusivityViolationMsg, occupiedMgr) :=
  ⟨rfl, create_job_user_occupied occupiedMgr "job_a1b2c3d4" "job2" "c2" 1
    "job_e5f6a7b8" 50 (Except.ok ()) rfl⟩

/-!
## C6: login validation
-/

/-- C6: `validate_user_access` returns true exactly when some lease in the
table has an account with the given username, flagged active, whose expiry is
strictly in the future. -/
theorem validate_user_access_iff (m : SshManager) (username : String) (now : Int) :
    validate_user_access m username now = true ↔
      ∃ p ∈ m.active_users, p.2.ssh_user.username = username ∧
        p.2.ssh_user.is_active = true ∧ now < p.2.expires_at := by
  simp [validate_user_access, List.any_eq_true, and_assoc]

/-!
## C3: atomicity of broker errors

In the source, `remove_job_user` removes the lease from the table and clears
the slot before calling the gateway, so a gateway failure surfaces the error
while the removal stands. The claim that every error leaves the broker state
unchanged is therefore false; the counterexample below exhibits it, and the
amended theorem records what does hold.
-/

/-- A broker state holding one lease for job1 whose account occupies the
slot, used to exercise a failing gateway deletion. -/
def gwFailMgr : SshManager :=
  ⟨[("job1",
     { job_id := "job1", client_id := "c1"
       ssh_user := { username := "job_b7c8d9e0", job_id := "job1", created_at := 0
                     is_active := true, ssh_key := none }
       expires_at := 3600 })], some "job_b7c8d9e0"⟩

/-- Counterexample to C3: with one lease and a failing gateway deletion,
`remove_job_user` surfaces the gateway error, yet the lease table and the
slot have both changed — the lease is gone and the slot is free. -/
theorem remove_job_user_error_changes_state :
    (remove_job_user gwFailMgr "job1" (Except.error "Service timeout")).1 =
        Except.error "Service timeout" ∧
      (remove_job_user gwFailMgr "job1" (Except.error "Service timeout")).2.active_users = [] ∧
      (remove_job_user gwFailMgr "job1" (Except.error "Service timeout")).2.current_user = none ∧
      (remove_job_user gwFailMgr "job1" (Except.error "Service timeout")).2 ≠ gwFailMgr := by
  refine ⟨rfl, rfl, rfl, ?_⟩
  decide

/-- C3 amended: broker errors are surfaced synchronously; `create_job_user`
leaves the state unchanged on every error, and `remove_job_user` leaves the
state unchanged when the job is unknown, but on a gateway deletion failure the
error is returned after the lease has already been removed and the slot
conditionally freed. -/
theorem broker_error_state (m : SshManager) (job_id client_id : String)
    (duration_hours : Nat) (username : String) (now : Int) (gw : Except String Unit) :
    (∀ e, (create_job_user m job_id client_id duration_hours username now gw).1 =
        Except.error e →
      (create_job_user m job_id client_id duration_hours username now gw).2 = m)
    ∧ (lookupAssoc job_id m.active_users = none →
        (remove_job_user m job_id gw).2 = m)
    ∧ (∀ ja e, lookupAssoc job_id m.active_users = some ja →
        remove_job_user m job_id (Except.error e) =
          (Except.error e,
            { active_users := eraseAssoc job_id m.active_users
              current_user :=
                if m.current_user = some ja.ssh_user.username then none
                else m.current_user })) := by
  refine ⟨?_, ?_, ?_⟩
  · intro e he
    cases hc : m.current_user with
    | some u => simp [create_job_user, hc]
    | none =>
      cases gw with
      | error e2 => simp [create_job_user, hc]
      | ok _ => simp [create_job_user, hc] at he
  · intro h
    rw [remove_job_user_not_found m job_id gw h]
  · intro ja e h
    exact remove_job_user_found_err m job_id ja e h

/-- Witness for the amended C3 at concrete inputs: an occupied broker rejects
a creation with state unchanged, and a removal under a failing gateway
returns the error with the lease already removed. -/
theorem broker_error_state_witness :
    (create_job_user gwFailMgr "job2" "c2" 1 "job_f1a2b3c4" 0 (Except.ok ())).2 =
        gwFailMgr ∧
      remove_job_user gwFailMgr "job1" (Except.error "Service timeout") =
        (Except.error "Service timeout", ⟨[], none⟩) := by
  have h := broker_error_state gwFailMgr "job1" "c2" 1 "job_f1a2b3c4" 0
    (Except.error "Service timeout")
  refine ⟨?_, ?_⟩
  · exact (broker_error_state gwFailMgr "job2" "c2" 1 "job_f1a2b3c4" 0
      (Except.ok ())).1 exclusivityViolationMsg rfl
  · have h2 := h.2.2 (gwFailMgr.active_users.head (by decide)).2 "Service timeout" rfl
    simpa using h2

/-!
## C4: removal contract

The hypothesis `hgw` records that the gateway never produces the broker's own
UserNotFound message (in the source every gateway failure string has a fixed
distinct shape), which makes the error discrimination an equivalence.
-/

/-- C4: `remove_job_user` fails with the UserNotFound error exactly when no
lease with the job id exists, leaving the state unchanged in that case; when
the lease exists and the gateway deletion succeeds, the call returns `Ok`,
the lease is removed, the slot is free afterwards exactly when the removed
account occupied it (or it was already free), and when the removed account
did occupy the slot a subsequent `create_job_user` with a succeeding gateway
succeeds. -/
theorem remove_job_user_spec (m : SshManager) (job_id : String) (gw : Except String Unit)
    (hgw : gw ≠ Except.error (userNotFoundMsg job_id)) :
    ((remove_job_user m job_id gw).1 = Except.error (userNotFoundMsg job_id) ↔
        lookupAssoc job_id m.active_users = none)
    ∧ (lookupAssoc job_id m.active_users = none →
        remove_job_user m job_id gw = (Except.error (userNotFoundMsg job_id), m))
    ∧ (∀ ja, lookupAssoc job_id m.active_users = some ja → gw = Except.ok () →
        (remove_job_user m job_id gw).1 = Except.ok ()
        ∧ lookupAssoc job_id (remove_job_user m job_id gw).2.active_users = none
        ∧ ((remove_job_user m job_id gw).2.current_user = none ↔
            (m.current_user = some ja.ssh_user.username ∨ m.current_user = none))
        ∧ (m.current_user = some ja.ssh_user.username →
            ∀ job2 client2 duration2 username2 now2,
              ∃ a, (create_job_user (remove_job_user m job_id gw).2
                job2 client2 duration2 username2 now2 (Except.ok ())).1 =
                  Except.ok a)) := by
  refine ⟨?_, ?_, ?_⟩
  · cases hl : lookupAssoc job_id m.active_users with
    | none => simp [remove_job_user_not_found m job_id gw hl]
    | some ja =>
      cases gw with
      | ok u =>
        rw [remove_job_user_found_ok m job_id ja hl]
        simp
      | error e =>
        rw [remove_job_user_found_err m job_id ja e hl]
        simp only [Except.error.injEq]
        constructor
        · intro he
          exact absurd (by rw [he]) hgw
        · intro he
          simp at he
  · intro h
    exact remove_job_user_not_found m job_id gw h
  · intro ja hl hgweq
    subst hgweq
    rw [remove_job_user_found_ok m job_id ja hl]
    refine ⟨rfl, ?_, ?_, ?_⟩
    · exact lookupAssoc_eraseAssoc_self job_id m.active_users
    · by_cases hc : m.current_user = some ja.ssh_user.username
      · simp [hc]
      · simp only [if_neg hc]
        constructor
        · intro h
          exact Or.inr h
        · intro h
          rcases h with h | h
          · exact absurd h hc
          · exact h
    · intro hc job2 client2 duration2 username2 now2
      simp only [if_pos hc]
      exact ⟨_, rfl⟩

/-- A broker state for the C4 witness: one lease for job1 whose account
occupies the slot. -/
def removalMgr : SshManager :=
  ⟨[("job1",
     { job_id := "job1", client_id := "c1"
       ssh_user := { username := "job_11aa22bb", job_id := "job1", created_at := 0
                     is_active := true, ssh_key := none }
       expires_at := 3600 })], some "job_11aa22bb"⟩

/-- Witness for C4 at concrete inputs: removing job1 from `removalMgr` with a
succeeding gateway returns `Ok`, deletes the lease, frees the slot, and lets
a subsequent creation succeed; removing an unknown job id fails with the
UserNotFound error and changes nothing. -/
theorem remove_job_user_spec_witness :
    ((remove_job_user removalMgr "job1" (Except.ok ())).1 = Except.ok ()
      ∧ lookupAssoc "job1" (remove_job_user removalMgr "job1" (Except.ok ())).2.active_users
          = none
      ∧ (remove_job_user removalMgr "job1" (Except.ok ())).2.current_user = none
      ∧ (∃ a, (create_job_user (remove_job_user removalMgr "job1" (Except.ok ())).2
          "job3" "c3" 1 "job_33cc44dd" 10 (Except.ok ())).1 = Except.ok a))
    ∧ remove_job_user removalMgr "job9" (Except.ok ()) =
        (Except.error (userNotFoundMsg "job9"), removalMgr) := by
  constructor
  · have h := (remove_job_user_spec removalMgr "job1" (Except.ok ())
      (fun hh => Except.noConfusion hh)).2.2
      ((removalMgr.active_users.head (by decide)).2) rfl rfl
    refine ⟨h.1, h.2.1, ?_, h.2.2.2 rfl "job3" "c3" 1 "job_33cc44dd" 10⟩
    exact h.2.2.1.mpr (Or.inl rfl)
  · exact (remove_job_user_spec removalMgr "job9" (Except.ok ())
      (fun hh => Except.noConfusion hh)).2.1 rfl

/-!
## C5: cleanup of expired leases
-/

theorem eraseAssoc_append {κ α : Type} [DecidableEq κ] (k : κ) (l1 l2 : List (κ × α)) :
    eraseAssoc k (l1 ++ l2) = eraseAssoc k l1 ++ eraseAssoc k l2 :=
  List.filter_append _ _

theorem eraseAssoc_cons_self {κ α : Type} [DecidableEq κ] (k : κ) (v : α)
    (t : List (κ × α)) : eraseAssoc k ((k, v) :: t) = eraseAssoc k t := by
  simp [eraseAssoc, List.filter_cons]

/-- Induction form of the cleanup loop: `l` is the still-unprocessed suffix of
the snapshot and `kept` the processed leases that were not expired; the live
table is `kept ++ l`. With a succeeding gateway and duplicate-free job ids,
the loop returns the expired job ids and leaves exactly the unexpired
leases. -/
theorem cleanupGo_spec (now : Int) (gw : String → Except String Unit)
    (hgw : ∀ j, gw j = Except.ok ()) (l : List (String × JobAccess)) :
    ∀ (kept : List (String × JobAccess)) (m : SshManager),
      m.active_users = kept ++ l →
      ((kept ++ l).map Prod.fst).Nodup →
      (cleanupGo now gw l m).1 =
          (l.filter fun p => decide (p.2.expires_at ≤ now)).map Prod.fst
        ∧ (cleanupGo now gw l m).2.active_users =
          kept ++ l.filter fun p => decide (¬ p.2.expires_at ≤ now) := by
  induction l with
  | nil =>
    intro kept m hm hnd
    simp [cleanupGo, hm]
  | cons p t ih =>
    obtain ⟨j, a⟩ := p
    intro kept m hm hnd
    have hndc := hnd
    simp only [List.map_append, List.map_cons] at hnd
    rw [List.nodup_append] at hnd
    obtain ⟨hnd1, hnd2, hdisj⟩ := hnd
    rw [List.nodup_cons] at hnd2
    obtain ⟨hj2, hnd3⟩ := hnd2
    have hj1 : j ∉ kept.map Prod.fst := fun hj => hdisj hj (List.mem_cons_self _ _)
    have hlook : lookupAssoc j m.active_users = some a := by
      rw [hm, lookupAssoc_append_right j kept _ hj1, lookupAssoc_cons_self]
    by_cases hexp : a.expires_at ≤ now
    · have hrm := remove_job_user_found_ok m j a hlook
      have herase : eraseAssoc j m.active_users = kept ++ t := by
        rw [hm, eraseAssoc_append, eraseAssoc_of_notMem j kept hj1,
          eraseAssoc_cons_self, eraseAssoc_of_notMem j t hj2]
      have hnd4 : ((kept ++ t).map Prod.fst).Nodup := by
        rw [List.map_append, List.nodup_append]
        exact ⟨hnd1, hnd3, fun a2 ha hb => hdisj ha (List.mem_cons_of_mem _ hb)⟩
      have hstep : cleanupGo now gw ((j, a) :: t) m =
          (j :: (cleanupGo now gw t (remove_job_user m j (gw j)).2).1,
            (cleanupGo now gw t (remove_job_user m j (gw j)).2).2) := by
        simp only [cleanupGo, if_pos hexp, hgw j, hrm]
      have hm2 : (remove_job_user m j (gw j)).2.active_users = kept ++ t := by
        rw [hgw j, hrm]
        exact herase
      have hih := ih kept (remove_job_user m j (gw j)).2 hm2 hnd4
      rw [hstep]
      constructor
      · simp only [List.filter_cons, decide_eq_true_eq, if_pos hexp, List.map_cons]
        rw [hih.1]
      · simp only [List.filter_cons]
        rw [if_neg (by simpa using hexp)]
        exact hih.2
    · have hstep : cleanupGo now gw ((j, a) :: t) m = cleanupGo now gw t m := by
        simp only [cleanupGo, if_neg hexp]
      have hm2 : m.active_users = (kept ++ [(j, a)]) ++ t := by
        rw [hm, List.append_assoc]
        rfl
      have hnd5 : (((kept ++ [(j, a)]) ++ t).map Prod.fst).Nodup := by
        rw [List.append_assoc]
        exact hndc
      have hih := ih (kept ++ [(j, a)]) m hm2 hnd5
      rw [hstep]
      constructor
      · simp only [List.filter_cons, decide_eq_true_eq, if_neg hexp]
        exact hih.1
      · simp only [List.filter_cons]
        rw [if_pos (by simpa using hexp)]
        rw [hih.2, List.append_assoc]
        rfl

/-- C5: with a succeeding gateway and duplicate-free job ids,
`cleanup_expired_users` returns exactly the job ids of the leases whose
expiry has passed (`expires_at <= now`), removes every one of them, and
leaves every lease with a future expiry untouched. -/
theorem cleanup_expired_users_spec (m : SshManager) (now : Int)
    (gw : String → Except String Unit)
    (hgw : ∀ j, gw j = Except.ok ())
    (hnd : (m.active_users.map Prod.fst).Nodup) :
    (cleanup_expired_users m now gw).1 =
        (m.active_users.filter fun p => decide (p.2.expires_at ≤ now)).map Prod.fst
      ∧ (cleanup_expired_users m now gw).2.active_users =
        m.active_users.filter fun p => decide (¬ p.2.expires_at ≤ now) := by
  have h := cleanupGo_spec now gw hgw m.active_users [] m (by simp) (by simpa)
  simpa [cleanup_expired_users] using h

/-- The live (unexpired) lease of the C5 witness state. -/
def liveLease : JobAccess :=
  { job_id := "job2", client_id := "c2"
    ssh_user := { username := "job_cc33dd44", job_id := "job2", created_at := 0
                  is_active := true, ssh_key := none }
    expires_at := 9000 }

/-- A broker state with one expired lease (job1) and one live lease (job2),
evaluated at time 5000. -/
def cleanupMgr : SshManager :=
  ⟨[("job1",
     { job_id := "job1", client_id := "c1"
       ssh_user := { username := "job_aa11bb22", job_id := "job1", created_at := 0
                     is_active := true, ssh_key := none }
       expires_at := 3600 }),
    ("job2", liveLease)], some "job_cc33dd44"⟩

/-- Witness for C5: at time 5000 the expired job1 lease is cleaned and
returned, and the live job2 lease is untouched. -/
theorem cleanup_expired_users_spec_witness :
    (cleanup_expired_users cleanupMgr 5000 (fun _ => Except.ok ())).1 = ["job1"] ∧
      (cleanup_expired_users cleanupMgr 5000 (fun _ => Except.ok ())).2.active_users =
        [("job2", liveLease)] := by
  have h := cleanup_expired_users_spec cleanupMgr 5000 (fun _ => Except.ok ())
    (fun _ => rfl) (by decide)
  refine ⟨?_, ?_⟩
  · rw [h.1]
    rfl
  · rw [h.2]
    rfl

/-!
## C2: single-tenancy invariant
-/

/-- One broker operation together with its nondeterministic inputs (generated
username, current time, gateway outcomes). -/
inductive BrokerOp where
  | create (job_id client_id : String) (duration_hours : Nat) (username : String)
      (now : Int) (gw : Except String Unit)
  | remove (job_id : String) (gw : Except String Unit)
  | cleanup (now : Int) (gw : String → Except String Unit)

/-- Apply one broker operation to the state. -/
def applyBrokerOp (m : SshManager) : BrokerOp → SshManager
  | .create job_id client_id duration_hours username now gw =>
    (create_job_user m job_id client_id duration_hours username now gw).2
  | .remove job_id gw => (remove_job_user m job_id gw).2
  | .cleanup now gw => (cleanup_expired_users m now gw).2

/-- Run a sequence of broker operations. -/
def runBrokerOps (m : SshManager) (ops : List BrokerOp) : SshManager :=
  ops.foldl applyBrokerOp m

/-- The broker state shape maintained by every operation: either the table is
empty and the slot free, or the table holds exactly one lease whose account
username occupies the slot. -/
def BrokerInv (m : SshManager) : Prop :=
  (m.active_users = [] ∧ m.current_user = none) ∨
  (∃ j ja, m.active_users = [(j, ja)] ∧ m.current_user = some ja.ssh_user.username)

theorem brokerInv_new : BrokerInv SshManager.new :=
  Or.inl ⟨rfl, rfl⟩

theorem brokerInv_create (m : SshManager) (job_id client_id : String)
    (duration_hours : Nat) (username : String) (now : Int) (gw : Except String Unit)
    (h : BrokerInv m) :
    BrokerInv (create_job_user m job_id client_id duration_hours username now gw).2 := by
  cases hc : m.current_user with
  | some u => simpa [create_job_user, hc] using h
  | none =>
    cases gw with
    | error e => simpa [create_job_user, hc] using h
    | ok _ =>
      have ha : m.active_users = [] := by
        rcases h with ⟨ha, _⟩ | ⟨j, ja, _, hcu⟩
        · exact ha
        · rw [hc] at hcu
          exact absurd hcu (by simp)
      refine Or.inr ⟨job_id,
        { job_id := job_id, client_id := client_id
          ssh_user := { username := username, job_id := job_id, created_at := now
                        is_active := true, ssh_key := none }
          expires_at := now + (duration_hours : Int) * 3600 }, ?_, ?_⟩
      · simp [create_job_user, hc, ha, insertAssoc]
      · simp [create_job_user, hc, ha]

theorem brokerInv_remove (m : SshManager) (job_id : String) (gw : Except String Unit)
    (h : BrokerInv m) : BrokerInv (remove_job_user m job_id gw).2 := by
  rcases h with ⟨ha, hcu⟩ | ⟨j, ja, ha, hcu⟩
  · have hl : lookupAssoc job_id m.active_users = none := by rw [ha]; rfl
    rw [remove_job_user_not_found m job_id gw hl]
    exact Or.inl ⟨ha, hcu⟩
  · by_cases hj : j = job_id
    · subst hj
      have hl : lookupAssoc j m.active_users = some ja := by
        rw [ha, lookupAssoc_cons_self]
      have herase : eraseAssoc j m.active_users = [] := by
        rw [ha, eraseAssoc_cons_self]
        rfl
      cases gw with
      | ok _ =>
        rw [remove_job_user_found_ok m j ja hl]
        exact Or.inl ⟨herase, by simp [hcu]⟩
      | error e =>
        rw [remove_job_user_found_err m j ja e hl]
        exact Or.inl ⟨herase, by simp [hcu]⟩
    · have hl : lookupAssoc job_id m.active_users = none := by
        rw [ha]
        simp [lookupAssoc, hj]
      rw [remove_job_user_not_found m job_id gw hl]
      exact Or.inr ⟨j, ja, ha, hcu⟩

theorem brokerInv_cleanupGo (now : Int) (gw : String → Except String Unit)
    (l : List (String × JobAccess)) :
    ∀ m : SshManager, BrokerInv m → BrokerInv (cleanupGo now gw l m).2 := by
  induction l with
  | nil => intro m h; exact h
  | cons p t ih =>
    obtain ⟨j, a⟩ := p
    intro m h
    by_cases hexp : a.expires_at ≤ now
    · have h2 := brokerInv_remove m j (gw j) h
      cases hr : (remove_job_user m j (gw j)).1 with
      | ok _ =>
        simpa [cleanupGo, if_pos hexp, hr] using ih _ h2
      | error e =>
        simpa [cleanupGo, if_pos hexp, hr] using ih _ h2
    · simpa [cleanupGo, if_neg hexp] using ih _ h

theorem brokerInv_run (m : SshManager) (ops : List BrokerOp) (h : BrokerInv m) :
    BrokerInv (runBrokerOps m ops) := by
  induction ops generalizing m with
  | nil => exact h
  | cons op t ih =>
    refine ih (applyBrokerOp m op) ?_
    cases op with
    | create job_id client_id duration_hours username now gw =>
      exact brokerInv_create m job_id client_id duration_hours username now gw h
    | remove job_id gw => exact brokerInv_remove m job_id gw h
    | cleanup now gw => exact brokerInv_cleanupGo now gw m.active_users m h

/-- C2: starting from the freshly constructed broker, after any sequence of
`create_job_user`, `remove_job_user` and `cleanup_expired_users` operations,
the lease table holds at most one lease, and the slot holds `u` exactly when
the table holds a lease whose account username is `u`. -/
theorem single_tenancy (ops : List BrokerOp) :
    (runBrokerOps SshManager.new ops).active_users.length ≤ 1 ∧
      ∀ u, ((runBrokerOps SshManager.new ops).current_user = some u ↔
        ∃ p ∈ (runBrokerOps SshManager.new ops).active_users,
          p.2.ssh_user.username = u) := by
  have h := brokerInv_run SshManager.new ops brokerInv_new
  rcases h with ⟨ha, hcu⟩ | ⟨j, ja, ha, hcu⟩
  · rw [ha, hcu]
    simp
  · rw [ha, hcu]
    constructor
    · simp
    · intro u
      simp [eq_comm]

/-!
## C8: the peer table never contains the local node
-/

theorem processDatagram_preserves_no_self (localId : List Nat) (now : Nat)
    (table : List (List Nat × NodeAdvertisement)) (data : List Nat)
    (h : lookupAssoc localId table = none) :
    lookupAssoc localId (processDatagram localId now table data) = none := by
  cases hde : deserializeAd data with
  | none =>
    simp only [processDatagram, hde]
    exact h
  | some p =>
    obtain ⟨ad, rest⟩ := p
    simp only [processDatagram, hde]
    by_cases hid : ad.node_id = localId
    · rw [if_pos hid]
      exact h
    · rw [if_neg hid]
      by_cases hfresh : sub64 now ad.timestamp < NODE_TIMEOUT
      · rw [if_pos hfresh, lookupAssoc_insertAssoc_ne ad.node_id localId ad table hid]
        exact h
      · rw [if_neg hfresh]
        exact h

theorem listenerRun_preserves_no_self (localId : List Nat)
    (msgs : List (Nat × List Nat)) :
    ∀ table : List (List Nat × NodeAdvertisement),
      lookupAssoc localId table = none →
      lookupAssoc localId (listenerRun localId msgs table) = none := by
  induction msgs with
  | nil => intro table h; exact h
  | cons msg t ih =>
    intro table h
    exact ih _ (processDatagram_preserves_no_self localId msg.1 table msg.2 h)

/-- C8: for any sequence of received datagrams, each processed at its own
current time, the peer table built by the listener from the empty table never
contains an entry keyed by the local node id. -/
theorem peer_table_no_self (localId : List Nat) (msgs : List (Nat × List Nat)) :
    lookupAssoc localId (listenerRun localId msgs []) = none :=
  listenerRun_preserves_no_self localId msgs [] rfl

/-!
## C9: janitor staleness eviction
-/

/-- C9: after a janitor pass at time `now`, an entry is in the peer table
exactly when it was there before and its age `now - timestamp` (wrapping
`u64` subtraction, as the source computes it) is below the 120-unit
staleness window: every older entry is removed and every younger entry is
retained, whatever the table held. -/
theorem janitorPass_mem (now : Nat) (table : List (List Nat × NodeAdvertisement))
    (p : List Nat × NodeAdvertisement) :
    p ∈ janitorPass now table ↔
      p ∈ table ∧ sub64 now p.2.timestamp < NODE_TIMEOUT := by
  simp [janitorPass, List.mem_filter]

/-!
## C10: advertisements from the future are dropped
-/

/-- C10: a successfully deserialized advertisement whose timestamp is
strictly in the future is never inserted: the age check uses wrapping `u64`
subtraction, which for any future timestamp within `2 ^ 64 - 120` of now is
at least the 120-unit staleness window, so the freshness test fails and the
table is unchanged. -/
theorem listener_drops_future (localId : List Nat) (now : Nat)
    (table : List (List Nat × NodeAdvertisement)) (data rest : List Nat)
    (ad : NodeAdvertisement)
    (hde : deserializeAd data = some (ad, rest))
    (hnow : now < 2 ^ 64) (hts : ad.timestamp < 2 ^ 64)
    (hfut : now < ad.timestamp)
    (hbound : ad.timestamp - now ≤ 2 ^ 64 - NODE_TIMEOUT) :
    processDatagram localId now table data = table := by
  have hb : ad.timestamp - now ≤ 2 ^ 64 - 120 := by
    simpa [NODE_TIMEOUT] using hbound
  have hstale : ¬ sub64 now ad.timestamp < NODE_TIMEOUT := by
    simp only [sub64, NODE_TIMEOUT]
    rw [Nat.mod_eq_of_lt (by omega)]
    omega
  simp only [processDatagram, hde]
  by_cases hid : ad.node_id = localId
  · rw [if_pos hid]
  · rw [if_neg hid, if_neg hstale]

/-!
## C7: serialization round-trip
-/

theorem getLE_putLE (k : Nat) (n : Nat) (rest : List Nat) (h : n < 256 ^ k) :
    getLE k (putLE k n ++ rest) = some (n, rest) := by
  induction k generalizing n with
  | zero =>
    have hn : n = 0 := by simpa using h
    subst hn
    rfl
  | succ k ih =>
    have hdiv : n / 256 < 256 ^ k := by
      rw [Nat.div_lt_iff_lt_mul (by norm_num : 0 < 256)]
      calc n < 256 ^ (k + 1) := h
        _ = 256 ^ k * 256 := by rw [pow_succ]
    simp only [putLE, getLE, List.cons_append, List.append_eq]
    rw [ih _ hdiv]
    simp [Nat.mod_add_div]

theorem getBytes_putBytes (s : List Nat) (rest : List Nat) (h : s.length < 2 ^ 64) :
    getBytes (putBytes s ++ rest) = some (s, rest) := by
  have h2 : s.length < 256 ^ 8 := by
    have e : (256 : Nat) ^ 8 = 2 ^ 64 := by norm_num
    omega
  have hle : s.length ≤ (s ++ rest).length := by
    rw [List.length_append]
    omega
  unfold getBytes putBytes
  rw [List.append_assoc, getLE_putLE 8 s.length (s ++ rest) h2, Option.some_bind,
    if_pos hle, List.take_left, List.drop_left]

theorem getOpt_putOpt_bytes (o : Option (List Nat)) (rest : List Nat)
    (h : ∀ s, o = some s → s.length < 2 ^ 64) :
    getOpt getBytes (putOpt putBytes o ++ rest) = some (o, rest) := by
  cases o with
  | none => rfl
  | some s =>
    simp only [putOpt, List.cons_append, getOpt]
    rw [getBytes_putBytes s rest (h s rfl)]
    rfl

theorem getBool_putBool (b : Bool) (rest : List Nat) :
    getBool (putBool b ++ rest) = some (b, rest) := by
  cases b <;> rfl

theorem getNodeType_putNodeType (t : NodeType) (rest : List Nat) :
    getNodeType (putNodeType t ++ rest) = some (t, rest) := by
  cases t <;>
    · unfold getNodeType putNodeType
      rw [getLE_putLE 4 _ _ (by norm_num [nodeTypeIdx])]
      rfl

theorem getNodeStatus_putNodeStatus (s : NodeStatus) (rest : List Nat) :
    getNodeStatus (putNodeStatus s ++ rest) = some (s, rest) := by
  cases s <;>
    · unfold getNodeStatus putNodeStatus
      rw [getLE_putLE 4 _ _ (by norm_num [nodeStatusIdx])]
      rfl

theorem getCaps_putCaps (c : NodeCapabilities) (rest : List Nat)
    (h1 : c.cpu_cores < 2 ^ 32) (h2 : c.memory_gb < 2 ^ 32)
    (h3 : c.gpu_count < 2 ^ 32) (h4 : c.gpu_memory_gb < 2 ^ 32)
    (h5 : c.disk_space_gb < 2 ^ 32) (h6 : c.network_speed_mbps < 2 ^ 32)
    (h7 : c.max_concurrent_jobs < 2 ^ 32) :
    getCaps (putCaps c ++ rest) = some (c, rest) := by
  have e32 : (2 : Nat) ^ 32 = 256 ^ 4 := by norm_num
  rw [e32] at h1 h2 h3 h4 h5 h6 h7
  unfold putCaps getCaps
  simp only [List.append_assoc]
  rw [getLE_putLE 4 _ _ h1, Option.some_bind, getLE_putLE 4 _ _ h2, Option.some_bind,
    getLE_putLE 4 _ _ h3, Option.some_bind, getLE_putLE 4 _ _ h4, Option.some_bind,
    getLE_putLE 4 _ _ h5, Option.some_bind, getLE_putLE 4 _ _ h6, Option.some_bind,
    getBool_putBool, Option.some_bind, getBool_putBool, Option.some_bind,
    getLE_putLE 4 _ _ h7, Option.some_bind]

theorem deserializeAd_serializeAd (r : NodeAdvertisement) (rest : List Nat)
    (h : ValidAd r) :
    deserializeAd (serializeAd r ++ rest) = some (r, rest) := by
  obtain ⟨hb1, hl1, hb2, hl2, hzt, hp1, hp2, hc1, hc2, hc3, hc4, hc5, hc6, hc7,
    hts, hb3, hl3⟩ := h
  have e16 : (2 : Nat) ^ 16 = 256 ^ 2 := by norm_num
  have e64 : (2 : Nat) ^ 64 = 256 ^ 8 := by norm_num
  unfold serializeAd deserializeAd
  simp only [List.append_assoc]
  rw [getBytes_putBytes _ _ hl1, Option.some_bind,
    getNodeType_putNodeType, Option.some_bind,
    getBytes_putBytes _ _ hl2, Option.some_bind,
    getOpt_putOpt_bytes _ _ (fun s hs => (hzt s hs).2), Option.some_bind,
    getLE_putLE 2 _ _ (e16 ▸ hp1), Option.some_bind,
    getLE_putLE 2 _ _ (e16 ▸ hp2), Option.some_bind,
    getCaps_putCaps _ _ hc1 hc2 hc3 hc4 hc5 hc6 hc7, Option.some_bind,
    getNodeStatus_putNodeStatus, Option.some_bind,
    getLE_putLE 8 _ _ (e64 ▸ hts), Option.some_bind,
    getBytes_putBytes _ _ hl3, Option.some_bind]

/-- C7: deserializing the serialization of any valid advertisement record
yields the record back, field for field, with no bytes left over. -/
theorem ad_roundtrip (r : NodeAdvertisement) (h : ValidAd r) :
    deserializeAd (serializeAd r) = some (r, []) := by
  have h2 := deserializeAd_serializeAd r [] h
  simpa using h2

/-- The capability snapshot of the source's serialization test. -/
def capsTest : NodeCapabilities :=
  { cpu_cores := 8, memory_gb := 32, gpu_count := 1, gpu_memory_gb := 11
    disk_space_gb := 1000, network_speed_mbps := 1000
    supports_docker := true, supports_gpu := true, max_concurrent_jobs := 4 }

/-- A concrete valid rental advertisement (string fields as short byte
strings). -/
def adTest : NodeAdvertisement :=
  { node_id := [116, 110, 49], node_type := .Rental, ip_address := [49, 57, 50]
    zerotier_ip := some [49, 48], ssh_port := 22, api_port := 8080
    capabilities := capsTest, status := .Available, timestamp := 1700000000
    network_id := [51, 54, 51] }

theorem validAd_adTest : ValidAd adTest := by
  refine ⟨by decide, by decide, by decide, by decide, ?_, by decide, by decide,
    by decide, by decide, by decide, by decide, by decide, by decide, by decide,
    by decide, by decide, by decide⟩
  intro s hs
  have h2 : [49, 48] = s := Option.some.inj hs
  exact h2 ▸ ⟨by decide, by decide⟩

/-- Witness for C7: the concrete advertisement is valid and round-trips
exactly. -/
theorem ad_roundtrip_witness :
    ValidAd adTest ∧ deserializeAd (serializeAd adTest) = some (adTest, []) :=
  ⟨validAd_adTest, ad_roundtrip adTest validAd_adTest⟩

/-- A concrete advertisement whose timestamp 2000 lies in the future of the
receive time 1000. -/
def adFuture : NodeAdvertisement :=
  { node_id := [110, 50], node_type := .Rental, ip_address := [49, 48]
    zerotier_ip := none, ssh_port := 22, api_port := 8080
    capabilities := capsTest, status := .Available, timestamp := 2000
    network_id := [97, 98] }

/-- Witness for C10: the future-stamped datagram deserializes successfully
but is not inserted, leaving the empty table empty. -/
theorem listener_drops_future_witness :
    deserializeAd (serializeAd adFuture) = some (adFuture, []) ∧
      1000 < adFuture.timestamp ∧
      processDatagram [109] 1000 [] (serializeAd adFuture) = [] := by
  have hde : deserializeAd (serializeAd adFuture) = some (adFuture, []) := by rfl
  refine ⟨hde, by decide, ?_⟩
  exact listener_drops_future [109] 1000 [] (serializeAd adFuture) [] adFuture hde
    (by decide) (by decide) (by decide) (by decide)
